import Mathlib

/-!
The vHelix file `src/model/HelixModel.cpp`: a shallow embedding

The functions of `HelixModel.cpp` are sequences of calls into the host scene
graph.  The host is modelled by a `Scene`: one field per host query the source
performs, returning `none` (or carrying a flag) where the host reports a failing
`MStatus`.  Objects, DAG paths and plugs are identified by natural numbers; a handle
is identified with the object and the path it wraps.

Conventions of the embedding:

* a function with out-parameters returns its status together with the values of the
  out-parameters after the call; a function that changes the scene returns the new scene;
* a failing host status is `MStatus.kFailure`;
* a counted `for` loop is a recursion on the number of iterations left;
* the recursion of `GetRelativesFunctor::operator()` and of `SearchParentsForType`
  is bounded by a `fuel` argument, the depth allowed, and returns `none` when it is
  exhausted;
* `unsigned int` values are natural numbers, reduced modulo `2 ^ 32` where the source
  can wrap; doubles are exact rationals.
-/

set_option autoImplicit false
set_option linter.unusedVariables false

/-! ## Host model -/

/-- The status codes of `MStatus` the source tells apart. -/
inductive MStatus where
  | kSuccess
  | kFailure
  | kNotFound
  deriving DecidableEq, Repr

/-- The conversion of an `MStatus` to `bool` (`if (!status)` tests the negation). -/
def MStatus.toBool : MStatus → Bool
  | MStatus.kSuccess => true
  | _ => false

/-- An `MVector`. -/
structure MVector where
  x : ℚ
  y : ℚ
  z : ℚ
  deriving DecidableEq

/-- The host scene as seen through the calls of `HelixModel.cpp`. -/
structure Scene where
  /-- Whether `Object::getObject` succeeds on this handle -/
  validObject : Nat → Bool := fun _ => true
  /-- Whether `Object::getDagPath` succeeds on this handle -/
  validDagPath : Nat → Bool := fun _ => true
  /-- Result of `MDagPath::childCount` -/
  childCount : Nat → Option Nat := fun _ => some 0
  /-- Result of `MDagPath::child (i)` -/
  child : Nat → Nat → Option Nat := fun _ _ => none
  /-- Result of `MDagPath::fullPathName` -/
  fullPathName : Nat → String := fun _ => ""
  /-- Result of `MFnDagNode::typeId` (its status is never inspected by the source) -/
  typeId : Nat → Nat := fun _ => 0
  /-- Result of `MFnDagNode::parentCount` -/
  parentCount : Nat → Option Nat := fun _ => some 0
  /-- Result of `MFnDagNode::parent (i)` -/
  parent : Nat → Nat → Option Nat := fun _ _ => none
  /-- Result of `MFnTransform::getTranslation`, `none` when the call fails -/
  translation : Nat → Option MVector := fun _ => none
  /-- Whether `MFnTransform::setTranslation` fails on this node -/
  translationLocked : Nat → Bool := fun _ => false
  /-- Result of `MDagPath::extendToShape` -/
  extendToShape : Nat → Option Nat := fun _ => none
  /-- Whether `MDagPath::node` and `MPlug::node` succeed on this node -/
  nodeOk : Nat → Bool := fun _ => true
  /-- Whether `MFnDependencyNode::attribute (name)` succeeds -/
  hasAttribute : Nat → String → Bool := fun _ _ => true
  /-- Result of `MPlug::connectedTo` on the plug `node.attribute`: the returned flag and
  the nodes of the target plugs -/
  connectedTo : Nat → String → Option (Bool × List Nat) := fun _ _ => none
  /-- Result of `MPlug::getValue` on the plug `node.attribute` -/
  plugValue : Nat → String → Option ℚ := fun _ _ => none
  /-- Whether `MPlug::setValue` fails on the plug `node.attribute` -/
  plugLocked : Nat → String → Bool := fun _ _ => false
  /-- Whether `MDagPath::isValid` reports a success status on this path -/
  isValidOk : Option Nat → Bool := fun _ => true
  /-- Whether `MObjectArray::append` of an object to an array succeeds -/
  appendOk : List Nat → Nat → Bool := fun _ _ => true
  /-- Result of `Helix_Relatives (helix, helices)`: the relatives reported -/
  Helix_Relatives : Nat → Option (List Nat) := fun _ => some []

/-- The constants the source takes from headers: `::Helix::Helix::id`,
`::Helix::HelixBase::id` and `DNA::RADIUS`. -/
structure Constants where
  Helix_id : Nat
  HelixBase_id : Nat
  DNA_RADIUS : ℚ

/-- Model of `Object::getObject (status)`: a handle is its object. -/
def Object.getObject (sc : Scene) (o : Nat) : Option Nat :=
  if sc.validObject o then some o else none

/-- Model of `Object::getDagPath (status)`: a handle is its path. -/
def Object.getDagPath (sc : Scene) (o : Nat) : Option Nat :=
  if sc.validDagPath o then some o else none

/-! ## Relatives -/

/-- Model of `for_each_ref (first, last, functor)`: the functor, passed by reference, is
applied to every element in order.  `none` when a call runs out of fuel. -/
def for_each_ref {σ : Type} (f : σ → Nat → Option σ) : List Nat → σ → Option σ
  | [], st => some st
  | x :: xs, st =>
    match f st x with
    | none => none
    | some st1 => for_each_ref f xs st1

/-- The members of `GetRelativesFunctor`; `m_relatives` is the caller's array. -/
structure GetRelativesFunctor where
  m_status : MStatus
  m_relatives : List Nat
  deriving DecidableEq

/-- Source function `Helix::getRelatives (helices)`. -/
def Helix.getRelatives (sc : Scene) (helix : Nat) : MStatus × List Nat :=
  match Object.getObject sc helix with
  | none => (MStatus.kFailure, [])
  | some thisObject =>
    match sc.Helix_Relatives thisObject with
    | none => (MStatus.kFailure, [])
    | some helices => (MStatus.kSuccess, helices)

/-- Source function `GetRelativesFunctor::operator()`; `fuel` bounds the depth of the recursion
through `Helix::getRelatives`, `none` when it is exhausted. -/
def GetRelativesFunctor.call (sc : Scene) :
    Nat → GetRelativesFunctor → Nat → Option GetRelativesFunctor
  | 0, _, _ => none
  | fuel + 1, st, helix =>
    if helix ∈ st.m_relatives then some st
    else
      match Object.getObject sc helix with
      | none => some { st with m_status := MStatus.kFailure }
      | some object =>
        if sc.appendOk st.m_relatives object = false then
          some { st with m_status := MStatus.kFailure }
        else
          let m_relatives := st.m_relatives ++ [object]
          match Helix.getRelatives sc helix with
          | (MStatus.kSuccess, helix_relatives) =>
            for_each_ref (GetRelativesFunctor.call sc fuel) helix_relatives
              { m_status := MStatus.kSuccess, m_relatives := m_relatives }
          | (status, _) => some { m_status := status, m_relatives := m_relatives }

/-- Source function `Helix::GetRelatives (helices, relatives)`: the status returned and the
`relatives` array after the call. -/
def Helix.GetRelatives (sc : Scene) (fuel : Nat) (helices relatives : List Nat) :
    Option (MStatus × List Nat) :=
  match for_each_ref (GetRelativesFunctor.call sc fuel) helices
      { m_status := MStatus.kSuccess, m_relatives := relatives } with
  | none => none
  | some functor => some (functor.m_status, functor.m_relatives)

/-- One application of `Helix_Relatives`: `b` is reported as a relative of `a`. -/
def IsRelative (sc : Scene) (a b : Nat) : Prop :=
  ∃ l, sc.Helix_Relatives a = some l ∧ b ∈ l

/-- The helices below `N` that are not in `relatives`. -/
def uncollected (N : Nat) (relatives : List Nat) : Nat :=
  ((List.range N).filter (fun h => decide (h ∉ relatives))).length

/-! ## Cylinder helpers -/

/-- An `MDagPath` variable: `none` is the default constructed, invalid path. -/
abbrev MDagPath := Option Nat

/-- The macro `CYLINDERREPRESENTATION_NAME`. -/
def CYLINDERREPRESENTATION_NAME : String := "cylinderRepresentation"

/-- Whether `strstr (haystack, needle)` is non-null: `needle` occurs in `haystack`. -/
def strstr : List Char → List Char → Bool
  | [], needle => needle.isEmpty
  | c :: cs, needle => needle.isPrefixOf (c :: cs) || strstr cs needle

/-- The loop of `FindChildWithNameContaining`: `i` is the loop counter and the
first argument counts the iterations left, `numChildren - i`. -/
def FindChildWithNameContaining.loop (sc : Scene) (object : Nat) (contains : String)
    (result : MDagPath) : Nat → Nat → MStatus × MDagPath
  | 0, _ => (MStatus.kNotFound, result)
  | remaining + 1, i =>
    match sc.child object i with
    | none => (MStatus.kFailure, result)
    | some child =>
      match Object.getDagPath sc child with
      | none => (MStatus.kFailure, result)
      | some child_dagPath =>
        let child_fullPathName := sc.fullPathName child_dagPath
        if strstr child_fullPathName.data CYLINDERREPRESENTATION_NAME.data then
          (MStatus.kSuccess, some child_dagPath)
        else FindChildWithNameContaining.loop sc object contains result remaining (i + 1)

/-- Source function `FindChildWithNameContaining (object, contains, result)`: the status
returned and the value of `result` after the call. -/
def FindChildWithNameContaining (sc : Scene) (object : MDagPath) (contains : String)
    (result : MDagPath) : MStatus × MDagPath :=
  match object with
  | none => (MStatus.kFailure, result)
  | some o =>
    match sc.childCount o with
    | none => (MStatus.kFailure, result)
    | some numChildren => FindChildWithNameContaining.loop sc o contains result numChildren 0

/-- Source function `Helix_getCylinder (helix, cylinder)`. -/
def Helix_getCylinder (sc : Scene) (helix : MDagPath) (cylinder : MDagPath) :
    MStatus × MDagPath :=
  FindChildWithNameContaining sc helix CYLINDERREPRESENTATION_NAME cylinder

/-- Source function `Helix_getCylinderCaps (cylinder, topCap, bottomCap)`: the status and
the values of `topCap` and `bottomCap` after the call. -/
def Helix_getCylinderCaps (sc : Scene) (cylinder : MDagPath) (topCap bottomCap : MDagPath) :
    MStatus × MDagPath × MDagPath :=
  let (status, topCap) :=
    FindChildWithNameContaining sc cylinder (CYLINDERREPRESENTATION_NAME ++ "_topCap") topCap
  if !status.toBool then (status, topCap, bottomCap)
  else
    let (status, bottomCap) :=
      FindChildWithNameContaining sc cylinder (CYLINDERREPRESENTATION_NAME ++ "_bottomCap")
        bottomCap
    if !status.toBool then (status, topCap, bottomCap)
    else (MStatus.kSuccess, topCap, bottomCap)

/-- Source function `Helix_getMakeNurbCylinder (cylinder, makeNurbCylinder)`: the status and
the value of `makeNurbCylinder` after the call. -/
def Helix_getMakeNurbCylinder (sc : Scene) (cylinder : MDagPath)
    (makeNurbCylinder : Option Nat) : MStatus × Option Nat :=
  match cylinder.bind sc.extendToShape with
  | none => (MStatus.kFailure, makeNurbCylinder)
  | some cylinderShape =>
    if !sc.nodeOk cylinderShape then (MStatus.kFailure, makeNurbCylinder)
    else
      let cylinderShapeObject := cylinderShape
      if !sc.hasAttribute cylinderShapeObject "create" then
        (MStatus.kFailure, makeNurbCylinder)
      else
        match sc.connectedTo cylinderShapeObject "create" with
        | none => (MStatus.kFailure, makeNurbCylinder)
        | some (isConnected, targetPlugs) =>
          if !isConnected || decide (targetPlugs.length < 1) then
            (MStatus.kFailure, makeNurbCylinder)
          else
            match targetPlugs.head? with
            | none => (MStatus.kFailure, makeNurbCylinder)
            | some plug =>
              if !sc.nodeOk plug then (MStatus.kFailure, none)
              else (MStatus.kSuccess, some plug)

/-- Host call `MFnTransform::setTranslation`: the scene after the call, `none` on failure. -/
def Scene.setTranslation (sc : Scene) (node : Nat) (v : MVector) : Option Scene :=
  if sc.translationLocked node then none
  else some { sc with translation := fun n => if n = node then some v else sc.translation n }

/-- Host call `MPlug::setValue` on the plug `node.attribute`. -/
def Scene.setValue (sc : Scene) (node : Nat) (attr : String) (v : ℚ) : Option Scene :=
  if sc.plugLocked node attr then none
  else some { sc with
    plugValue := fun n a => if n = node ∧ a = attr then some v else sc.plugValue n a }

/-- Source function `SetZTranslationOnDagPath (dagPath, z)`: the status and the scene after
the call. -/
def SetZTranslationOnDagPath (sc : Scene) (dagPath : MDagPath) (z : ℚ) : MStatus × Scene :=
  match dagPath with
  | none => (MStatus.kFailure, sc)
  | some node =>
    match sc.translation node with
    | none => (MStatus.kFailure, sc)
    | some translation =>
      match sc.setTranslation node { translation with z := z } with
      | none => (MStatus.kFailure, sc)
      | some sc1 => (MStatus.kSuccess, sc1)

/-! ## Cylinder range -/

/-- Source function `Helix::setCylinderRange (origo, height)`: the status returned and the
scene after the call. -/
def Helix.setCylinderRange (sc : Scene) (this : Nat) (origo height : ℚ) : MStatus × Scene :=
  match Object.getDagPath sc this with
  | none => (MStatus.kFailure, sc)
  | some helix =>
    let (status, cylinder) := Helix_getCylinder sc (some helix) none
    if !status.toBool then (status, sc)
    else
      let (status, sc) := SetZTranslationOnDagPath sc cylinder origo
      if !status.toBool then (status, sc)
      else
        let (status, topCap, bottomCap) := Helix_getCylinderCaps sc cylinder none none
        if !status.toBool then (status, sc)
        else
          -- the results of the next two calls are tested but not assigned to `status`
          let (bottomCapStatus, sc) := SetZTranslationOnDagPath sc bottomCap origo
          if !bottomCapStatus.toBool then (status, sc)
          else
            let (topCapStatus, sc) := SetZTranslationOnDagPath sc topCap (origo + height)
            if !topCapStatus.toBool then (status, sc)
            else
              let (status, makeNurbCylinder) := Helix_getMakeNurbCylinder sc cylinder none
              if !status.toBool then (status, sc)
              else
                match makeNurbCylinder with
                | none => (MStatus.kFailure, sc)
                | some generator =>
                  if !sc.hasAttribute generator "heightRatio" then (MStatus.kFailure, sc)
                  else if !sc.hasAttribute generator "radius" then (MStatus.kFailure, sc)
                  else
                    match sc.plugValue generator "radius" with
                    | none => (MStatus.kFailure, sc)
                    | some radius =>
                      match sc.setValue generator "heightRatio" (height / radius) with
                      | none => (MStatus.kFailure, sc)
                      | some sc1 => (MStatus.kSuccess, sc1)

/-- Source function `Helix::getCylinderRange (origo, height)`: the status returned and the
values of `origo` and `height` after the call. -/
def Helix.getCylinderRange (sc : Scene) (this : Nat) (origo height : ℚ) : MStatus × ℚ × ℚ :=
  match Object.getDagPath sc this with
  | none => (MStatus.kFailure, origo, height)
  | some helix =>
    let (status, cylinder) := Helix_getCylinder sc (some helix) none
    if !status.toBool then (status, origo, height)
    else
      match cylinder.bind sc.translation with
      | none => (MStatus.kFailure, origo, height)
      | some translation =>
        let (status, makeNurbCylinder) := Helix_getMakeNurbCylinder sc cylinder none
        if !status.toBool then (status, origo, height)
        else
          match makeNurbCylinder with
          | none => (MStatus.kFailure, origo, height)
          | some generator =>
            if !sc.hasAttribute generator "heightRatio" then (MStatus.kFailure, origo, height)
            else if !sc.hasAttribute generator "radius" then (MStatus.kFailure, origo, height)
            else
              match sc.plugValue generator "heightRatio" with
              | none => (MStatus.kFailure, origo, height)
              | some heightRatio =>
                match sc.plugValue generator "radius" with
                | none => (MStatus.kFailure, origo, height)
                | some radius => (MStatus.kSuccess, translation.z, heightRatio * radius)

/-- Source function `Helix::hasCylinder (status)`: the boolean returned and `status`. -/
def Helix.hasCylinder (sc : Scene) (this : Nat) : Bool × MStatus :=
  match Object.getDagPath sc this with
  | none => (MStatus.kFailure.toBool, MStatus.kFailure)
  | some thisDagPath =>
    let (status, cylinder) := Helix_getCylinder sc (some thisDagPath) none
    let isValid := cylinder.isSome
    if !sc.isValidOk cylinder then (MStatus.kFailure.toBool, MStatus.kFailure)
    else (isValid, MStatus.kSuccess)

/-- The parameters spliced into the MEL script of `Helix::createCylinder`. -/
structure CylinderCommand where
  radius : ℚ
  heightRatio : ℚ
  bottomCapParameter : ℚ
  helixPath : String
  move : ℚ

/-- Source function `Helix::createCylinder (origo, top)`; `executeCommand` is the host call
`MGlobal::executeCommand` on the MEL script. -/
def Helix.createCylinder (K : Constants) (executeCommand : CylinderCommand → Scene → Option Scene)
    (sc : Scene) (this : Nat) (origo top : ℚ) : MStatus × Scene :=
  if (Helix.hasCylinder sc this).1 then Helix.setCylinderRange sc this origo top
  else
    match Object.getDagPath sc this with
    | none => (MStatus.kFailure, sc)
    | some helix_dagPath =>
      match executeCommand
          { radius := K.DNA_RADIUS, heightRatio := (top - origo) / K.DNA_RADIUS,
            bottomCapParameter := top - origo, helixPath := sc.fullPathName helix_dagPath,
            move := origo } sc with
      | none => (MStatus.kFailure, sc)
      | some sc1 => (MStatus.kSuccess, sc1)

/-! ## Searching the parents -/

/-- The loop of `SearchParentsForType` over the parents of `object`; `search` is the
recursive call, `i` the loop counter and the first counter the iterations left. -/
def SearchParentsForType.loop (search : Nat → Option Nat → Option (Bool × Option Nat))
    (sc : Scene) (object : Nat) : Nat → Nat → Option Nat → Option (Bool × Option Nat)
  | 0, _, result => some (false, result)
  | remaining + 1, i, result =>
    match sc.parent object i with
    | none => some (MStatus.kFailure.toBool, result)
    | some parent =>
      match search parent result with
      | none => none
      | some (true, result1) => some (true, result1)
      | some (false, result1) => SearchParentsForType.loop search sc object remaining (i + 1) result1

/-- Source function `SearchParentsForType (object, result, typeId)`: the boolean returned
and the value of `result` after the call; `fuel` bounds the depth of the recursion,
`none` when it is exhausted. -/
def SearchParentsForType (sc : Scene) (typeId : Nat) :
    Nat → Nat → Option Nat → Option (Bool × Option Nat)
  | 0, _, _ => none
  | fuel + 1, object, result =>
    if sc.typeId object = typeId then some (true, some object)
    else
      match sc.parentCount object with
      | none => some (false, result)
      | some numParents =>
        SearchParentsForType.loop (SearchParentsForType sc typeId fuel) sc object numParents 0
          result

/-- Source function `Helix::Selected (object, helix)`: the status returned and the value
of `helix` after the call. -/
def Helix.Selected (sc : Scene) (K : Constants) (fuel : Nat) (object : Nat)
    (helix : Option Nat) : Option (MStatus × Option Nat) :=
  match Object.getObject sc object with
  | none => some (MStatus.kFailure, helix)
  | some mobject =>
    match SearchParentsForType sc K.Helix_id fuel mobject helix with
    | none => none
    | some (true, helix1) => some (MStatus.kSuccess, helix1)
    | some (false, helix1) => some (MStatus.kFailure, helix1)

/-! ## The base iterator -/

/-- The members of `Helix::BaseIterator`; `m_childIndex` holds the 32-bit pattern of
the index, so that the `-1` of `Helix::begin` is `4294967295`. -/
structure Helix.BaseIterator where
  m_helix : Nat
  m_childIndex : Nat
  deriving DecidableEq

/-- The loop of `GetNextBaseIndex` after its initial increment; the first counter is
the number of iterations left, `numChildren - m_childIndex`. -/
def Helix.BaseIterator.GetNextBaseIndex.loop (sc : Scene) (K : Constants) (helix_dagPath : Nat) :
    Nat → Nat → Nat
  | 0, m_childIndex => m_childIndex
  | remaining + 1, m_childIndex =>
    match sc.child helix_dagPath m_childIndex with
    | none =>
      Helix.BaseIterator.GetNextBaseIndex.loop sc K helix_dagPath remaining
        ((m_childIndex + 1) % 4294967296)
    | some child =>
      if sc.typeId child = K.HelixBase_id then m_childIndex
      else
        Helix.BaseIterator.GetNextBaseIndex.loop sc K helix_dagPath remaining
          ((m_childIndex + 1) % 4294967296)

/-- Source function `Helix::BaseIterator::GetNextBaseIndex`. -/
def Helix.BaseIterator.GetNextBaseIndex (sc : Scene) (K : Constants) (it : Helix.BaseIterator) :
    Helix.BaseIterator :=
  match Object.getDagPath sc it.m_helix with
  | none => it
  | some helix_dagPath =>
    match sc.childCount helix_dagPath with
    | none => it
    | some numChildren =>
      let m_childIndex := (it.m_childIndex + 1) % 4294967296
      { it with
        m_childIndex :=
          Helix.BaseIterator.GetNextBaseIndex.loop sc K helix_dagPath
            (numChildren - m_childIndex) m_childIndex }

/-- Source function `Helix::begin`. -/
def Helix.begin (sc : Scene) (K : Constants) (this : Nat) : Helix.BaseIterator :=
  Helix.BaseIterator.GetNextBaseIndex sc K { m_helix := this, m_childIndex := 4294967295 }

/-- Source function `Helix::end`. -/
def Helix.end_ (sc : Scene) (this : Nat) : Helix.BaseIterator :=
  match Object.getDagPath sc this with
  | none => { m_helix := this, m_childIndex := 1000 }
  | some this_dagPath =>
    match sc.childCount this_dagPath with
    | none => { m_helix := this, m_childIndex := 1000 }
    | some numChildren => { m_helix := this, m_childIndex := numChildren }

/-- The child indices visited by `for (it = begin (); it != end (); ++it)`, the iterators
being compared by index: `it` is the current iterator, `none` when `fuel` steps do not
reach `end ()`. -/
def Helix.visit (sc : Scene) (K : Constants) (this : Nat) :
    Nat → Helix.BaseIterator → Option (List Nat)
  | 0, _ => none
  | fuel + 1, it =>
    if it.m_childIndex = (Helix.end_ sc this).m_childIndex then some []
    else
      match Helix.visit sc K this fuel (Helix.BaseIterator.GetNextBaseIndex sc K it) with
      | none => none
      | some rest => some (it.m_childIndex :: rest)

/-! ## Specification side: relations, measures and example scenes -/

/-- The array `b` extends the array `a` by fresh, pairwise distinct objects of `S`. -/
def Grows (S : Nat → Prop) (a b : GetRelativesFunctor) : Prop :=
  ∃ added, b.m_relatives = a.m_relatives ++ added ∧ added.Nodup ∧
    ∀ x ∈ added, x ∉ a.m_relatives ∧ S x

/-- The helices reachable from `a` by zero or more applications of `Helix_Relatives`. -/
def Reach (sc : Scene) (a b : Nat) : Prop := Relation.ReflTransGen (IsRelative sc) a b

/-- Every host call made while collecting relatives succeeds. -/
def RelativesHostOk (sc : Scene) : Prop :=
  (∀ h, sc.validObject h = true) ∧ (∀ l h, sc.appendOk l h = true) ∧
    ∀ h, ∃ l, sc.Helix_Relatives h = some l

/-- The array `b` contains `a`, the relatives of every helix new in `b` are in `b`, and a
success status is kept. -/
def Closes (sc : Scene) (a b : GetRelativesFunctor) : Prop :=
  (∀ x, x ∈ a.m_relatives → x ∈ b.m_relatives) ∧
  (∀ x, x ∈ b.m_relatives → x ∉ a.m_relatives → ∀ r, IsRelative sc x r → r ∈ b.m_relatives) ∧
  (a.m_status = MStatus.kSuccess → b.m_status = MStatus.kSuccess)

/-- Whether the child of `helix` at index `j` is obtained and has type `HelixBase::id`. -/
def isBaseChild (sc : Scene) (K : Constants) (helix j : Nat) : Bool :=
  match sc.child helix j with
  | none => false
  | some c => decide (sc.typeId c = K.HelixBase_id)

/-- The node `p` is a parent of `a`. -/
def IsParent (sc : Scene) (a p : Nat) : Prop :=
  ∃ n i, sc.parentCount a = some n ∧ i < n ∧ sc.parent a i = some p

/-- The parents of `o` in parent-index order. -/
def parentsOf (sc : Scene) (o : Nat) : List Nat :=
  match sc.parentCount o with
  | none => []
  | some n => (List.range n).filterMap (sc.parent o)

/-- The depth-first pre-order of the nodes above `o`, through the parents in parent-index
order, down to depth `fuel`. -/
def parentsPreorder (sc : Scene) : Nat → Nat → List Nat
  | 0, o => [o]
  | fuel + 1, o => o :: (parentsOf sc o).flatMap (parentsPreorder sc fuel)

/-- The result of a search that found `found`. -/
def searchResult (found : Option Nat) (result : Option Nat) : Bool × Option Nat :=
  match found with
  | some a => (true, some a)
  | none => (false, result)

/-- Every parent query of the search succeeds. -/
def ParentsHostOk (sc : Scene) : Prop :=
  ∀ o, ∃ n, sc.parentCount o = some n ∧ ∀ i, i < n → ∃ p, sc.parent o i = some p

/-- A helix `0` with the cylinder `1`, whose children are the top cap `3` and the bottom
cap `4`; the shape of the cylinder is `2` and its generator node `5` has radius 2 and
height ratio 7. -/
def sceneCaps : Scene :=
  { childCount := fun n => if n = 0 then some 1 else if n = 1 then some 2 else some 0
    child := fun n i =>
      if n = 0 ∧ i = 0 then some 1
      else if n = 1 ∧ i = 0 then some 3
      else if n = 1 ∧ i = 1 then some 4
      else none
    fullPathName := fun n =>
      if n = 0 then "|helix1"
      else if n = 1 then "|helix1|cylinderRepresentation"
      else if n = 2 then "|helix1|cylinderRepresentation|cylinderRepresentationShape"
      else if n = 3 then "|helix1|cylinderRepresentation|cylinderRepresentation_topCap"
      else if n = 4 then "|helix1|cylinderRepresentation|cylinderRepresentation_bottomCap"
      else "makeNurbCylinder1"
    translation := fun n => if n = 2 ∨ n = 5 then none else some ⟨0, 0, 0⟩
    extendToShape := fun n => if n = 1 then some 2 else none
    connectedTo := fun n a => if n = 2 ∧ a = "create" then some (true, [5]) else none
    plugValue := fun n a =>
      if n = 5 ∧ a = "radius" then some 2
      else if n = 5 ∧ a = "heightRatio" then some 7
      else none }

/-- The scene `sceneCaps` with the bottom cap `4` as first child of the cylinder and its
translation locked, so that `MFnTransform::setTranslation` fails on it. -/
def sceneLockedCap : Scene :=
  { sceneCaps with
    child := fun n i =>
      if n = 0 ∧ i = 0 then some 1
      else if n = 1 ∧ i = 0 then some 4
      else if n = 1 ∧ i = 1 then some 3
      else none
    translationLocked := fun n => decide (n = 4) }

/-- The scene `b` answers the DAG and dependency-graph queries like the scene `a`. -/
def SameGraph (a b : Scene) : Prop :=
  b.validDagPath = a.validDagPath ∧ b.childCount = a.childCount ∧ b.child = a.child ∧
  b.fullPathName = a.fullPathName ∧ b.extendToShape = a.extendToShape ∧
  b.nodeOk = a.nodeOk ∧ b.hasAttribute = a.hasAttribute ∧ b.connectedTo = a.connectedTo

/-- The scene after `MFnTransform::setTranslation` has given the node `n`, translated by
`t`, the new coordinate `z`. -/
def Scene.withZ (sc : Scene) (n : Nat) (t : MVector) (z : ℚ) : Scene :=
  { sc with translation := fun m => if m = n then some { t with z := z } else sc.translation m }

/-- A scene with a cyclic relatives relation: 0 and 1 are relatives of each other, as are
1 and 3. -/
def sceneCycle : Scene :=
  { Helix_Relatives := fun h =>
      if h = 0 then some [1, 2] else if h = 1 then some [0, 2, 3]
      else if h = 3 then some [1] else some [] }

/-- The constants used in the examples. -/
def exampleConstants : Constants := { Helix_id := 5, HelixBase_id := 7, DNA_RADIUS := 1 }

/-- A helix `0` with the children 10, 11, 12, 13, of which 10 and 12 are bases, and a
helix `1` with the children 11 and 13. -/
def sceneBases : Scene :=
  { childCount := fun n => if n = 0 then some 4 else if n = 1 then some 2 else some 0
    child := fun n i =>
      if n = 0 ∧ i < 4 then some (10 + i)
      else if n = 1 ∧ i < 2 then some (11 + 2 * i)
      else none
    typeId := fun n => if n = 10 ∨ n = 12 then 7 else if n = 0 ∨ n = 1 then 5 else 3 }

/-- A base `3` with the parents 2 and 1, where 2 has the parent 0; the nodes 0 and 1 are
helices. -/
def sceneParents : Scene :=
  { parentCount := fun n => if n = 3 then some 2 else if n = 2 then some 1 else some 0
    parent := fun n i =>
      if n = 3 ∧ i = 0 then some 2
      else if n = 3 ∧ i = 1 then some 1
      else if n = 2 ∧ i = 0 then some 0
      else none
    typeId := fun n => if n = 0 ∨ n = 1 then 5 else 7 }

/-! ## Theorems -/

theorem uncollected_succ (N : Nat) (l : List Nat) :
    uncollected (N + 1) l = uncollected N l + (if N ∈ l then 0 else 1) := by
  unfold uncollected
  rw [List.range_succ, List.filter_append, List.length_append]
  by_cases h : N ∈ l <;> simp [h]

theorem uncollected_mono (N : Nat) (l l' : List Nat) (h : ∀ x, x ∈ l → x ∈ l') :
    uncollected N l' ≤ uncollected N l := by
  induction N with
  | zero => simp [uncollected]
  | succ n ih =>
    rw [uncollected_succ, uncollected_succ]
    by_cases h1 : n ∈ l
    · simp [h1, h n h1, ih]
    · by_cases h2 : n ∈ l' <;> simp [h1, h2] <;> omega

theorem uncollected_append_lt (N : Nat) (l : List Nat) (h : Nat) (hN : h < N) (hl : h ∉ l) :
    uncollected N (l ++ [h]) < uncollected N l := by
  induction N with
  | zero => omega
  | succ n ih =>
    rw [uncollected_succ, uncollected_succ]
    by_cases hn : h = n
    · subst hn
      have := uncollected_mono h l (l ++ [h]) (fun x hx => List.mem_append_left _ hx)
      simp [hl]; omega
    · have hlt : h < n := by omega
      have := ih hlt
      by_cases h1 : n ∈ l
      · simp [h1]; omega
      · have h2 : n ∉ l ++ [h] := by
          simp [h1]; omega
        simp [h1, h2]; omega

theorem uncollected_le (N : Nat) (l : List Nat) : uncollected N l ≤ N := by
  unfold uncollected
  calc ((List.range N).filter _).length ≤ (List.range N).length := List.length_filter_le _ _
    _ = N := List.length_range N

/-- A step relation that is reflexive and transitive and holds across each call of the
functor holds across `for_each_ref`. -/
theorem for_each_ref_preorder {σ : Type} (f : σ → Nat → Option σ) (R : σ → σ → Prop)
    (P : Nat → Prop) (hrefl : ∀ s, R s s) (htrans : ∀ a b c, R a b → R b c → R a c)
    (hf : ∀ s x s1, P x → f s x = some s1 → R s s1) :
    ∀ (l : List Nat) (s s1 : σ), (∀ x ∈ l, P x) → for_each_ref f l s = some s1 → R s s1 := by
  intro l
  induction l with
  | nil =>
    intro s s1 _ h
    simp [for_each_ref] at h
    subst h; exact hrefl s
  | cons x xs ih =>
    intro s s1 hP h
    simp only [for_each_ref] at h
    cases hfx : f s x with
    | none => simp [hfx] at h
    | some s2 =>
      simp only [hfx] at h
      exact htrans _ _ _ (hf s x s2 (hP x (List.mem_cons_self _ _)) hfx)
        (ih s2 s1 (fun y hy => hP y (List.mem_cons_of_mem _ hy)) h)

theorem Grows_refl (S : Nat → Prop) (a : GetRelativesFunctor) : Grows S a a :=
  ⟨[], by simp, List.nodup_nil, by simp⟩

theorem Grows_trans (S : Nat → Prop) (a b c : GetRelativesFunctor) (hab : Grows S a b)
    (hbc : Grows S b c) : Grows S a c := by
  obtain ⟨l1, e1, n1, f1⟩ := hab
  obtain ⟨l2, e2, n2, f2⟩ := hbc
  refine ⟨l1 ++ l2, by rw [e2, e1, List.append_assoc], ?_, ?_⟩
  · rw [List.nodup_append]
    refine ⟨n1, n2, ?_⟩
    intro x hx1 hx2
    exact (f2 x hx2).1 (by rw [e1]; exact List.mem_append_right _ hx1)
  · intro x hx
    rcases List.mem_append.mp hx with h | h
    · exact f1 x h
    · exact ⟨fun hxa => (f2 x h).1 (by rw [e1]; exact List.mem_append_left _ hxa), (f2 x h).2⟩

theorem Grows_mono (S T : Nat → Prop) (hST : ∀ x, S x → T x) (a b : GetRelativesFunctor)
    (h : Grows S a b) : Grows T a b := by
  obtain ⟨l, e, n, f⟩ := h
  exact ⟨l, e, n, fun x hx => ⟨(f x hx).1, hST x (f x hx).2⟩⟩

theorem Grows_subset (S : Nat → Prop) (a b : GetRelativesFunctor) (h : Grows S a b) :
    ∀ x, x ∈ a.m_relatives → x ∈ b.m_relatives := by
  obtain ⟨l, e, _, _⟩ := h
  intro x hx
  rw [e]; exact List.mem_append_left _ hx

theorem Grows_append (S : Nat → Prop) (st : GetRelativesFunctor) (s : MStatus) (helix : Nat)
    (hmem : helix ∉ st.m_relatives) (hS : S helix) :
    Grows S st { m_status := s, m_relatives := st.m_relatives ++ [helix] } :=
  ⟨[helix], rfl, List.nodup_singleton _, by
    intro x hx
    rw [List.mem_singleton] at hx
    subst hx
    exact ⟨hmem, hS⟩⟩

/-- The body of `GetRelativesFunctor::operator()`, by cases on the host results. -/
theorem call_succ (sc : Scene) (fuel : Nat) (st : GetRelativesFunctor) (helix : Nat) :
    GetRelativesFunctor.call sc (fuel + 1) st helix =
      if helix ∈ st.m_relatives then some st
      else if sc.validObject helix = false then
        some { m_status := MStatus.kFailure, m_relatives := st.m_relatives }
      else if sc.appendOk st.m_relatives helix = false then
        some { m_status := MStatus.kFailure, m_relatives := st.m_relatives }
      else
        match sc.Helix_Relatives helix with
        | none => some { m_status := MStatus.kFailure, m_relatives := st.m_relatives ++ [helix] }
        | some l =>
          for_each_ref (GetRelativesFunctor.call sc fuel) l
            { m_status := MStatus.kSuccess, m_relatives := st.m_relatives ++ [helix] } := by
  rw [GetRelativesFunctor.call]
  by_cases hmem : helix ∈ st.m_relatives
  · simp [hmem]
  · by_cases hv : sc.validObject helix = false
    · simp [hmem, hv, Object.getObject]
    · have hv1 : sc.validObject helix = true := by simpa using hv
      by_cases ha : sc.appendOk st.m_relatives helix = false
      · simp [hmem, hv1, ha, Object.getObject]
      · have ha1 : sc.appendOk st.m_relatives helix = true := by simpa using ha
        cases hr : sc.Helix_Relatives helix <;>
          simp [hmem, hv1, ha1, Object.getObject, Helix.getRelatives, hr]

/-- Every call of the functor only appends fresh, pairwise distinct helices, each of them
reachable from the helix it was called on. -/
theorem call_grows (sc : Scene) : ∀ (fuel : Nat) (st : GetRelativesFunctor) (helix : Nat)
    (st1 : GetRelativesFunctor), GetRelativesFunctor.call sc fuel st helix = some st1 →
    Grows (Reach sc helix) st st1 := by
  intro fuel
  induction fuel with
  | zero => intro st helix st1 h; simp [GetRelativesFunctor.call] at h
  | succ fuel ih =>
    intro st helix st1 h
    rw [call_succ] at h
    split_ifs at h with hmem hv ha
    · simp only [Option.some.injEq] at h
      subst h; exact Grows_refl _ _
    · simp only [Option.some.injEq] at h
      subst h; exact ⟨[], by simp, List.nodup_nil, by simp⟩
    · simp only [Option.some.injEq] at h
      subst h; exact ⟨[], by simp, List.nodup_nil, by simp⟩
    · cases hr : sc.Helix_Relatives helix with
      | none =>
        rw [hr] at h
        simp only [Option.some.injEq] at h
        subst h
        exact Grows_append _ _ _ _ hmem Relation.ReflTransGen.refl
      | some l =>
        rw [hr] at h
        simp only at h
        refine Grows_trans _ _ _ _
          (Grows_append _ st MStatus.kSuccess helix hmem Relation.ReflTransGen.refl) ?_
        refine for_each_ref_preorder (GetRelativesFunctor.call sc fuel)
          (Grows (Reach sc helix)) (fun x => x ∈ l) (Grows_refl _) (Grows_trans _) ?_
          l _ st1 (fun x hx => hx) h
        intro s x s1 hx hcall
        refine Grows_mono _ _ ?_ _ _ (ih s x s1 hcall)
        intro y hy
        exact Relation.ReflTransGen.head ⟨l, hr, hx⟩ hy

/-- If calls of the functor at depth `fuel` return while fewer than `fuel` helices are
uncollected, so does `for_each_ref` over them. -/
theorem for_each_ref_terminates_of (sc : Scene) (N fuel : Nat)
    (hcall : ∀ (s : GetRelativesFunctor) (x : Nat), x < N → uncollected N s.m_relatives < fuel →
      ∃ s1, GetRelativesFunctor.call sc fuel s x = some s1) :
    ∀ (xs : List Nat) (s : GetRelativesFunctor), (∀ x ∈ xs, x < N) →
      uncollected N s.m_relatives < fuel →
      ∃ s1, for_each_ref (GetRelativesFunctor.call sc fuel) xs s = some s1 := by
  intro xs
  induction xs with
  | nil => intro s _ _; exact ⟨s, rfl⟩
  | cons x xs ihx =>
    intro s hx hs
    obtain ⟨s2, h2⟩ := hcall s x (hx x (List.mem_cons_self _ _)) hs
    have hsub := Grows_subset _ _ _ (call_grows sc fuel s x s2 h2)
    have hle := uncollected_mono N _ _ hsub
    obtain ⟨s3, h3⟩ := ihx s2 (fun y hy => hx y (List.mem_cons_of_mem _ hy)) (by omega)
    exact ⟨s3, by simp only [for_each_ref, h2, h3]⟩

/-- With fuel above the number of helices not yet collected, a call of the functor
returns. -/
theorem call_terminates (sc : Scene) (N : Nat)
    (hfin : ∀ h l, sc.Helix_Relatives h = some l → ∀ r ∈ l, r < N) :
    ∀ (fuel : Nat) (st : GetRelativesFunctor) (helix : Nat), helix < N →
      uncollected N st.m_relatives < fuel →
      ∃ st1, GetRelativesFunctor.call sc fuel st helix = some st1 := by
  intro fuel
  induction fuel with
  | zero => intro st helix _ h; omega
  | succ fuel ih =>
    intro st helix hN hfuel
    rw [call_succ]
    split_ifs with hmem hv ha
    · exact ⟨_, rfl⟩
    · exact ⟨_, rfl⟩
    · exact ⟨_, rfl⟩
    · cases hr : sc.Helix_Relatives helix with
      | none => exact ⟨_, rfl⟩
      | some l =>
        simp only
        have hlt := uncollected_append_lt N st.m_relatives helix hN hmem
        exact for_each_ref_terminates_of sc N fuel ih l _ (hfin helix l hr)
          (by simp only; omega)

theorem Closes_refl (sc : Scene) (a : GetRelativesFunctor) : Closes sc a a :=
  ⟨fun _ h => h, fun _ h1 h2 => absurd h1 h2, fun h => h⟩

theorem Closes_trans (sc : Scene) (a b c : GetRelativesFunctor) (hab : Closes sc a b)
    (hbc : Closes sc b c) : Closes sc a c := by
  refine ⟨fun x hx => hbc.1 x (hab.1 x hx), ?_, fun h => hbc.2.2 (hab.2.2 h)⟩
  intro x hxc hxa r hr
  by_cases hxb : x ∈ b.m_relatives
  · exact hbc.1 r (hab.2.1 x hxb hxa r hr)
  · exact hbc.2.1 x hxc hxb r hr

theorem for_each_ref_closes (sc : Scene) (f : GetRelativesFunctor → Nat → Option GetRelativesFunctor)
    (hf : ∀ s x s1, f s x = some s1 → Closes sc s s1 ∧ x ∈ s1.m_relatives) :
    ∀ (l : List Nat) (s s1 : GetRelativesFunctor), for_each_ref f l s = some s1 →
      Closes sc s s1 ∧ ∀ x ∈ l, x ∈ s1.m_relatives := by
  intro l
  induction l with
  | nil =>
    intro s s1 h
    simp [for_each_ref] at h
    subst h
    exact ⟨Closes_refl sc s, by simp⟩
  | cons x xs ih =>
    intro s s1 h
    simp only [for_each_ref] at h
    cases hfx : f s x with
    | none => simp [hfx] at h
    | some s2 =>
      simp only [hfx] at h
      obtain ⟨c1, m1⟩ := hf s x s2 hfx
      obtain ⟨c2, m2⟩ := ih s2 s1 h
      refine ⟨Closes_trans sc _ _ _ c1 c2, ?_⟩
      intro y hy
      rcases List.mem_cons.mp hy with e | hm
      · subst e; exact c2.1 _ m1
      · exact m2 y hm

/-- When the host calls succeed, a call of the functor leaves the helix it was called on
in the array, together with the relatives of every helix it appended. -/
theorem call_closes (sc : Scene) (hok : RelativesHostOk sc) :
    ∀ (fuel : Nat) (st : GetRelativesFunctor) (helix : Nat) (st1 : GetRelativesFunctor),
      GetRelativesFunctor.call sc fuel st helix = some st1 →
      Closes sc st st1 ∧ helix ∈ st1.m_relatives := by
  intro fuel
  induction fuel with
  | zero => intro st helix st1 h; simp [GetRelativesFunctor.call] at h
  | succ fuel ih =>
    intro st helix st1 h
    rw [call_succ] at h
    split_ifs at h with hmem hv ha
    · simp only [Option.some.injEq] at h
      subst h; exact ⟨Closes_refl sc _, hmem⟩
    · rw [hok.1 helix] at hv; exact absurd hv (by decide)
    · rw [hok.2.1 _ helix] at ha; exact absurd ha (by decide)
    · obtain ⟨l, hl⟩ := hok.2.2 helix
      rw [hl] at h
      simp only at h
      obtain ⟨c, m⟩ := for_each_ref_closes sc (GetRelativesFunctor.call sc fuel) ih l _ st1 h
      have hin : helix ∈ st1.m_relatives := c.1 helix (by simp)
      refine ⟨⟨fun x hx => c.1 x (by simp [hx]), ?_, fun _ => c.2.2 rfl⟩, hin⟩
      intro x hx1 hx r hr
      by_cases hxh : x = helix
      · subst hxh
        obtain ⟨l1, e1, hr1⟩ := hr
        rw [hl] at e1
        simp only [Option.some.injEq] at e1
        subst e1
        exact m r hr1
      · exact c.2.1 x hx1 (by simp [hx, hxh]) r hr

/-- The result of `Helix::GetRelatives` in terms of the functor left by `for_each_ref`. -/
theorem GetRelatives_eq_some (sc : Scene) (fuel : Nat) (helices relatives : List Nat)
    (st1 : GetRelativesFunctor)
    (h : for_each_ref (GetRelativesFunctor.call sc fuel) helices
      { m_status := MStatus.kSuccess, m_relatives := relatives } = some st1) :
    Helix.GetRelatives sc fuel helices relatives = some (st1.m_status, st1.m_relatives) := by
  simp only [Helix.GetRelatives, h]

/-- With fuel above the number of helices not yet collected, `for_each_ref` over the
functor returns. -/
theorem for_each_ref_terminates (sc : Scene) (N : Nat)
    (hfin : ∀ h l, sc.Helix_Relatives h = some l → ∀ r ∈ l, r < N) (fuel : Nat) :
    ∀ (xs : List Nat) (s : GetRelativesFunctor), (∀ x ∈ xs, x < N) →
      uncollected N s.m_relatives < fuel →
      ∃ s1, for_each_ref (GetRelativesFunctor.call sc fuel) xs s = some s1 :=
  for_each_ref_terminates_of sc N fuel (call_terminates sc N hfin fuel)

/-- C1: in a finite scene whose host calls succeed, `Helix::GetRelatives` on an empty
array returns, with a success status, an array holding exactly the helices reachable from
an element of `helices` by zero or more applications of `Helix_Relatives`. -/
theorem GetRelatives_transitive_closure (sc : Scene) (N fuel : Nat) (helices : List Nat)
    (hok : RelativesHostOk sc)
    (hfin : ∀ h l, sc.Helix_Relatives h = some l → ∀ r ∈ l, r < N)
    (hin : ∀ h ∈ helices, h < N) (hfuel : N < fuel) :
    ∃ relatives, Helix.GetRelatives sc fuel helices [] = some (MStatus.kSuccess, relatives) ∧
      ∀ x, x ∈ relatives ↔ ∃ h ∈ helices, Reach sc h x := by
  obtain ⟨st1, h1⟩ := for_each_ref_terminates sc N hfin fuel helices
    { m_status := MStatus.kSuccess, m_relatives := [] } hin
    (lt_of_le_of_lt (uncollected_le N _) hfuel)
  obtain ⟨c, m⟩ := for_each_ref_closes sc (GetRelativesFunctor.call sc fuel)
    (call_closes sc hok fuel) helices _ st1 h1
  have g : Grows (fun x => ∃ h ∈ helices, Reach sc h x)
      { m_status := MStatus.kSuccess, m_relatives := [] } st1 := by
    refine for_each_ref_preorder (GetRelativesFunctor.call sc fuel) _ (fun x => x ∈ helices)
      (Grows_refl _) (Grows_trans _) ?_ helices _ st1 (fun x hx => hx) h1
    intro s x s1 hx hcall
    exact Grows_mono _ _ (fun y hy => ⟨x, hx, hy⟩) _ _ (call_grows sc fuel s x s1 hcall)
  refine ⟨st1.m_relatives, ?_, ?_⟩
  · rw [GetRelatives_eq_some sc fuel helices [] st1 h1, c.2.2 rfl]
  · intro x
    constructor
    · intro hx
      obtain ⟨added, e, _, f⟩ := g
      simp only [List.nil_append] at e
      rw [e] at hx
      exact (f x hx).2
    · rintro ⟨h, hh, hr⟩
      have hclosed : ∀ y, y ∈ st1.m_relatives → ∀ r, IsRelative sc y r → r ∈ st1.m_relatives :=
        fun y hy r hyr => c.2.1 y hy (by simp) r hyr
      induction hr with
      | refl => exact m h hh
      | tail _ hbc ih => exact hclosed _ ih _ hbc

/-- C2: `Helix::GetRelatives` returns the old array followed by pairwise distinct helices
that were not in it, so an array without duplicates stays without duplicates. -/
theorem GetRelatives_deduplicates (sc : Scene) (N fuel : Nat) (helices relatives : List Nat)
    (hfin : ∀ h l, sc.Helix_Relatives h = some l → ∀ r ∈ l, r < N)
    (hin : ∀ h ∈ helices, h < N) (hfuel : N < fuel) :
    ∃ status added,
      Helix.GetRelatives sc fuel helices relatives = some (status, relatives ++ added) ∧
      added.Nodup ∧ (∀ x ∈ added, x ∉ relatives) ∧
      (relatives.Nodup → (relatives ++ added).Nodup) := by
  obtain ⟨st1, h1⟩ := for_each_ref_terminates sc N hfin fuel helices
    { m_status := MStatus.kSuccess, m_relatives := relatives } hin
    (lt_of_le_of_lt (uncollected_le N _) hfuel)
  have g : Grows (fun _ => True)
      { m_status := MStatus.kSuccess, m_relatives := relatives } st1 := by
    refine for_each_ref_preorder (GetRelativesFunctor.call sc fuel) _ (fun _ => True)
      (Grows_refl _) (Grows_trans _) ?_ helices _ st1 (fun _ _ => trivial) h1
    intro s x s1 _ hcall
    exact Grows_mono _ _ (fun _ _ => trivial) _ _ (call_grows sc fuel s x s1 hcall)
  obtain ⟨added, e, nd, f⟩ := g
  simp only at e
  refine ⟨st1.m_status, added, ?_, nd, fun x hx => (f x hx).1, ?_⟩
  · rw [GetRelatives_eq_some sc fuel helices relatives st1 h1, e]
  · intro hnd
    rw [List.nodup_append]
    exact ⟨hnd, nd, fun x hx1 hx2 => (f x hx2).1 hx1⟩

/-- C10: the recursion of `GetRelativesFunctor::operator()` through `Helix::getRelatives`
is bounded by the number of helices not yet in `relatives`: with more fuel than that,
`Helix::GetRelatives` returns, whatever the relatives relation. -/
theorem GetRelatives_terminates (sc : Scene) (N fuel : Nat) (helices relatives : List Nat)
    (hfin : ∀ h l, sc.Helix_Relatives h = some l → ∀ r ∈ l, r < N)
    (hin : ∀ h ∈ helices, h < N) (hfuel : uncollected N relatives < fuel) :
    ∃ result, Helix.GetRelatives sc fuel helices relatives = some result := by
  obtain ⟨st1, h1⟩ := for_each_ref_terminates sc N hfin fuel helices
    { m_status := MStatus.kSuccess, m_relatives := relatives } hin hfuel
  exact ⟨_, GetRelatives_eq_some sc fuel helices relatives st1 h1⟩

/-- The loop of `GetNextBaseIndex` stops at the first index from `i` on whose child is a
base, or at `numChildren`. -/
theorem GetNextBaseIndex_loop_spec (sc : Scene) (K : Constants) (helix n : Nat)
    (h32 : n < 4294967296) :
    ∀ (remaining i : Nat), i + remaining = n →
      i ≤ Helix.BaseIterator.GetNextBaseIndex.loop sc K helix remaining i ∧
      Helix.BaseIterator.GetNextBaseIndex.loop sc K helix remaining i ≤ n ∧
      (Helix.BaseIterator.GetNextBaseIndex.loop sc K helix remaining i < n →
        isBaseChild sc K helix (Helix.BaseIterator.GetNextBaseIndex.loop sc K helix remaining i)
          = true) ∧
      ∀ j, i ≤ j → j < Helix.BaseIterator.GetNextBaseIndex.loop sc K helix remaining i →
        isBaseChild sc K helix j = false := by
  intro remaining
  induction remaining with
  | zero =>
    intro i hi
    simp only [Helix.BaseIterator.GetNextBaseIndex.loop]
    exact ⟨le_refl _, by omega, fun h => by omega, fun j h1 h2 => by omega⟩
  | succ r ih =>
    intro i hi
    have hmod : (i + 1) % 4294967296 = i + 1 := Nat.mod_eq_of_lt (by omega)
    have hnext := ih (i + 1) (by omega)
    rw [Helix.BaseIterator.GetNextBaseIndex.loop]
    cases hc : sc.child helix i with
    | none =>
      simp only [hmod]
      have hi0 : isBaseChild sc K helix i = false := by simp [isBaseChild, hc]
      refine ⟨by omega, hnext.2.1, hnext.2.2.1, ?_⟩
      intro j h1 h2
      by_cases hj : j = i
      · subst hj; exact hi0
      · exact hnext.2.2.2 j (by omega) h2
    | some c =>
      simp only [hmod]
      by_cases ht : sc.typeId c = K.HelixBase_id
      · simp only [ht, if_true]
        exact ⟨le_refl _, by omega, fun _ => by simp [isBaseChild, hc, ht],
          fun j h1 h2 => by omega⟩
      · simp only [ht, if_false]
        have hi0 : isBaseChild sc K helix i = false := by simp [isBaseChild, hc, ht]
        refine ⟨by omega, hnext.2.1, hnext.2.2.1, ?_⟩
        intro j h1 h2
        by_cases hj : j = i
        · subst hj; exact hi0
        · exact hnext.2.2.2 j (by omega) h2

theorem end_index (sc : Scene) (this n : Nat) (hpath : sc.validDagPath this = true)
    (hn : sc.childCount this = some n) : (Helix.end_ sc this).m_childIndex = n := by
  simp [Helix.end_, Object.getDagPath, hpath, hn]

theorem GetNextBaseIndex_eq (sc : Scene) (K : Constants) (this n idx : Nat)
    (hpath : sc.validDagPath this = true) (hn : sc.childCount this = some n) :
    Helix.BaseIterator.GetNextBaseIndex sc K { m_helix := this, m_childIndex := idx } =
      { m_helix := this,
        m_childIndex := Helix.BaseIterator.GetNextBaseIndex.loop sc K this
          (n - (idx + 1) % 4294967296) ((idx + 1) % 4294967296) } := by
  simp [Helix.BaseIterator.GetNextBaseIndex, Object.getDagPath, hpath, hn]

theorem filter_range_skip (p : Nat → Bool) (a b c : Nat) (hab : a ≤ b) (hbc : b ≤ c)
    (hno : ∀ j, a ≤ j → j < b → p j = false) :
    (List.range' a (c - a)).filter p = (List.range' b (c - b)).filter p := by
  have hsplit : List.range' a (c - a) = List.range' a (b - a) ++ List.range' b (c - b) := by
    have := List.range'_append a (b - a) (c - b) 1
    simp only [Nat.mul_one, Nat.one_mul] at this
    rw [show a + (b - a) = b by omega] at this
    rw [this]
    congr 1
    omega
  rw [hsplit, List.filter_append]
  have hnil : (List.range' a (b - a)).filter p = [] := by
    rw [List.filter_eq_nil_iff]
    intro j hj
    rw [List.mem_range'_1] at hj
    simp [hno j hj.1 (by omega)]
  rw [hnil, List.nil_append]

/-- From an iterator standing on a base or on `end ()`, the loop visits the bases from
its index on, in increasing order. -/
theorem visit_spec (sc : Scene) (K : Constants) (this n : Nat)
    (hpath : sc.validDagPath this = true) (hn : sc.childCount this = some n)
    (h32 : n < 4294967296) :
    ∀ (fuel i : Nat), i ≤ n → (i < n → isBaseChild sc K this i = true) → n - i < fuel →
      Helix.visit sc K this fuel { m_helix := this, m_childIndex := i } =
        some ((List.range' i (n - i)).filter (isBaseChild sc K this)) := by
  intro fuel
  induction fuel with
  | zero => intro i _ _ h; omega
  | succ fuel ih =>
    intro i hi hbase hfuel
    rw [Helix.visit, end_index sc this n hpath hn]
    by_cases hin : i = n
    · subst hin; simp
    · have hlt : i < n := by omega
      simp only [hin, if_false]
      rw [GetNextBaseIndex_eq sc K this n i hpath hn]
      have hmod : (i + 1) % 4294967296 = i + 1 := Nat.mod_eq_of_lt (by omega)
      rw [hmod]
      obtain ⟨h1, h2, h3, h4⟩ := GetNextBaseIndex_loop_spec sc K this n h32 (n - (i + 1)) (i + 1)
        (by omega)
      rw [ih _ h2 h3 (by omega)]
      simp only [Option.some.injEq]
      have hcons : List.range' i (n - i) = i :: List.range' (i + 1) (n - (i + 1)) := by
        rw [show n - i = (n - (i + 1)) + 1 by omega, List.range'_succ]
      rw [hcons, List.filter_cons, hbase hlt]
      simp only [if_true]
      rw [filter_range_skip _ (i + 1) _ n h1 h2 h4]

theorem begin_eq (sc : Scene) (K : Constants) (this n : Nat)
    (hpath : sc.validDagPath this = true) (hn : sc.childCount this = some n) :
    Helix.begin sc K this =
      { m_helix := this,
        m_childIndex := Helix.BaseIterator.GetNextBaseIndex.loop sc K this n 0 } := by
  rw [Helix.begin, GetNextBaseIndex_eq sc K this n _ hpath hn]
  rfl

/-- C3: for a helix with `n` children, the loop from `Helix::begin` by `GetNextBaseIndex`
up to the index of `Helix::end` visits exactly the indices below `n` whose child has type
`HelixBase::id`, in strictly increasing order. -/
theorem base_iterator_enumerates (sc : Scene) (K : Constants) (this n fuel : Nat)
    (hpath : sc.validDagPath this = true) (hn : sc.childCount this = some n)
    (h32 : n < 4294967296) (hfuel : n < fuel) :
    ∃ visited, Helix.visit sc K this fuel (Helix.begin sc K this) = some visited ∧
      visited = (List.range n).filter (isBaseChild sc K this) ∧
      visited.Pairwise (fun a b => a < b) ∧
      ∀ i, i ∈ visited ↔ i < n ∧ ∃ c, sc.child this i = some c ∧ sc.typeId c = K.HelixBase_id := by
  obtain ⟨h1, h2, h3, h4⟩ := GetNextBaseIndex_loop_spec sc K this n h32 n 0 (by omega)
  have hv := visit_spec sc K this n hpath hn h32 fuel _ h2 h3 (by omega)
  rw [← begin_eq sc K this n hpath hn] at hv
  have hskip := filter_range_skip (isBaseChild sc K this) 0 _ n h1 h2 h4
  rw [← hskip, Nat.sub_zero, ← List.range_eq_range'] at hv
  refine ⟨_, hv, rfl, ?_, ?_⟩
  · exact List.Pairwise.sublist (List.filter_sublist _) (List.pairwise_lt_range n)
  · intro i
    rw [List.mem_filter, List.mem_range]
    constructor
    · rintro ⟨hi, hb⟩
      refine ⟨hi, ?_⟩
      unfold isBaseChild at hb
      cases hc : sc.child this i with
      | none => rw [hc] at hb; simp at hb
      | some c => rw [hc] at hb; exact ⟨c, rfl, by simpa using hb⟩
    · rintro ⟨hi, c, hc, ht⟩
      exact ⟨hi, by simp [isBaseChild, hc, ht]⟩

/-- C8: when no child at a later index has type `HelixBase::id`, `GetNextBaseIndex` leaves
the iterator at index `n`, the index of `Helix::end`; in particular `Helix::begin` equals
`Helix::end` for a helix without a `HelixBase` child. -/
theorem GetNextBaseIndex_exhausted (sc : Scene) (K : Constants) (this n idx : Nat)
    (hpath : sc.validDagPath this = true) (hn : sc.childCount this = some n)
    (h32 : n < 4294967296) (hidx : idx < n ∨ idx = 4294967295)
    (hnone : ∀ j c, (idx + 1) % 4294967296 ≤ j → j < n → sc.child this j = some c →
      sc.typeId c ≠ K.HelixBase_id) :
    (Helix.BaseIterator.GetNextBaseIndex sc K { m_helix := this, m_childIndex := idx }).m_childIndex
        = n ∧
      (Helix.end_ sc this).m_childIndex = n ∧
      (idx = 4294967295 → Helix.begin sc K this = Helix.end_ sc this) := by
  have hstart : (idx + 1) % 4294967296 ≤ n := by
    rcases hidx with h | h
    · rw [Nat.mod_eq_of_lt (by omega)]; omega
    · subst h; simp
  obtain ⟨h1, h2, h3, h4⟩ := GetNextBaseIndex_loop_spec sc K this n h32
    (n - (idx + 1) % 4294967296) ((idx + 1) % 4294967296) (by omega)
  have hres : Helix.BaseIterator.GetNextBaseIndex.loop sc K this
      (n - (idx + 1) % 4294967296) ((idx + 1) % 4294967296) = n := by
    by_contra hne
    have hlt : Helix.BaseIterator.GetNextBaseIndex.loop sc K this
        (n - (idx + 1) % 4294967296) ((idx + 1) % 4294967296) < n := by omega
    have hb := h3 hlt
    unfold isBaseChild at hb
    cases hc : sc.child this (Helix.BaseIterator.GetNextBaseIndex.loop sc K this
        (n - (idx + 1) % 4294967296) ((idx + 1) % 4294967296)) with
    | none => rw [hc] at hb; simp at hb
    | some c =>
      rw [hc] at hb
      exact hnone _ c h1 hlt hc (by simpa using hb)
  have hend := end_index sc this n hpath hn
  refine ⟨?_, hend, ?_⟩
  · rw [GetNextBaseIndex_eq sc K this n idx hpath hn]
    exact hres
  · intro hi
    subst hi
    rw [Helix.begin, GetNextBaseIndex_eq sc K this n _ hpath hn, hres]
    simp [Helix.end_, Object.getDagPath, hpath, hn]

theorem SearchParentsForType_loop_spec (sc : Scene) (object : Nat)
    (search : Nat → Option Nat → Option (Bool × Option Nat)) (pre : Nat → List Nat)
    (q : Nat → Bool) (P : Nat → Prop)
    (hsearch : ∀ p result, P p → search p result = some (searchResult ((pre p).find? q) result)) :
    ∀ (r i : Nat) (result : Option Nat),
      (∀ j, i ≤ j → j < i + r → ∃ p, sc.parent object j = some p ∧ P p) →
      SearchParentsForType.loop search sc object r i result =
        some (searchResult
          ((((List.range' i r).filterMap (sc.parent object)).flatMap pre).find? q) result) := by
  intro r
  induction r with
  | zero => intro i result _; simp [SearchParentsForType.loop, searchResult]
  | succ r ih =>
    intro i result hpar
    obtain ⟨p, hp, hP⟩ := hpar i (le_refl _) (by omega)
    rw [SearchParentsForType.loop, hp]
    simp only
    rw [hsearch p result hP, List.range'_succ, List.filterMap_cons_some hp, List.flatMap_cons,
      List.find?_append]
    cases hf : (pre p).find? q with
    | some a => simp [searchResult]
    | none =>
      simp only [searchResult, Option.or]
      rw [ih (i + 1) result (fun j h1 h2 => hpar j (by omega) (by omega))]
      rfl

/-- In an acyclic scene `SearchParentsForType` returns the first node of the requested type
in the depth-first pre-order of the parents, and leaves `result` alone when there is
none. -/
theorem SearchParentsForType_spec (sc : Scene) (typeId : Nat) (rank : Nat → Nat)
    (hok : ParentsHostOk sc) (hrank : ∀ a p, IsParent sc a p → rank p < rank a) :
    ∀ (fuel object : Nat) (result : Option Nat), rank object < fuel →
      SearchParentsForType sc typeId fuel object result =
        some (searchResult
          ((parentsPreorder sc fuel object).find? (fun a => decide (sc.typeId a = typeId)))
          result) := by
  intro fuel
  induction fuel with
  | zero => intro object result h; omega
  | succ fuel ih =>
    intro object result hfuel
    rw [SearchParentsForType, parentsPreorder]
    by_cases ht : sc.typeId object = typeId
    · simp [ht, searchResult]
    · simp only [ht, if_false]
      obtain ⟨n, hn, hpar⟩ := hok object
      rw [hn]
      simp only
      rw [SearchParentsForType_loop_spec sc object (SearchParentsForType sc typeId fuel)
        (parentsPreorder sc fuel) (fun a => decide (sc.typeId a = typeId))
        (fun p => rank p < fuel) (fun p result hp => ih p result hp) n 0 result]
      · rw [List.find?_cons_of_neg _ (by simpa using ht), parentsOf, hn]
        simp only [List.range_eq_range']
      · intro j _ hj
        obtain ⟨p, hp⟩ := hpar j (by omega)
        exact ⟨p, hp, by have := hrank object p ⟨n, j, hn, by omega, hp⟩; omega⟩

theorem mem_parentsOf (sc : Scene) (a p : Nat) : p ∈ parentsOf sc a ↔ IsParent sc a p := by
  unfold parentsOf IsParent
  cases hn : sc.parentCount a with
  | none => simp
  | some n =>
    simp only [List.mem_filterMap, List.mem_range, Option.some.injEq]
    constructor
    · rintro ⟨i, hi, hp⟩; exact ⟨n, i, rfl, hi, hp⟩
    · rintro ⟨m, i, hm, hi, hp⟩; subst hm; exact ⟨i, hi, hp⟩

theorem mem_parentsPreorder (sc : Scene) (a : Nat) : ∀ (fuel object : Nat),
    a ∈ parentsPreorder sc fuel object → Relation.ReflTransGen (IsParent sc) object a := by
  intro fuel
  induction fuel with
  | zero =>
    intro object h
    simp only [parentsPreorder, List.mem_singleton] at h
    subst h; exact Relation.ReflTransGen.refl
  | succ fuel ih =>
    intro object h
    simp only [parentsPreorder, List.mem_cons, List.mem_flatMap] at h
    rcases h with h | ⟨p, hp, ha⟩
    · subst h; exact Relation.ReflTransGen.refl
    · exact Relation.ReflTransGen.head ((mem_parentsOf sc object p).mp hp) (ih p ha)

theorem parentsPreorder_complete (sc : Scene) (rank : Nat → Nat)
    (hrank : ∀ a p, IsParent sc a p → rank p < rank a) (a : Nat) :
    ∀ (fuel object : Nat), rank object < fuel → Relation.ReflTransGen (IsParent sc) object a →
      a ∈ parentsPreorder sc fuel object := by
  intro fuel
  induction fuel with
  | zero => intro object h; omega
  | succ fuel ih =>
    intro object hfuel hreach
    simp only [parentsPreorder, List.mem_cons, List.mem_flatMap]
    rcases Relation.ReflTransGen.cases_head hreach with h | ⟨p, hp, hpa⟩
    · left; exact h.symm
    · right
      exact ⟨p, (mem_parentsOf sc object p).mpr hp,
        ih p (by have := hrank object p hp; omega) hpa⟩

/-- C7: in a finite acyclic scene whose host calls succeed, `Helix::Selected` returns
`kSuccess` exactly when the object or one of its transitive parents has type `Helix::id`;
`helix` is then the first such node in the depth-first pre-order through the parents (the
object itself when it is a helix), and it is left unchanged on failure. -/
theorem Selected_searches_parents (sc : Scene) (K : Constants) (rank : Nat → Nat)
    (fuel object : Nat) (helix : Option Nat)
    (hobj : sc.validObject object = true) (hok : ParentsHostOk sc)
    (hrank : ∀ a p, IsParent sc a p → rank p < rank a) (hfuel : rank object < fuel) :
    ∃ status helix1, Helix.Selected sc K fuel object helix = some (status, helix1) ∧
      (status = MStatus.kSuccess ↔
        ∃ a, Relation.ReflTransGen (IsParent sc) object a ∧ sc.typeId a = K.Helix_id) ∧
      (status = MStatus.kSuccess →
        ∃ a, helix1 = some a ∧ Relation.ReflTransGen (IsParent sc) object a ∧
          sc.typeId a = K.Helix_id ∧ (sc.typeId object = K.Helix_id → a = object) ∧
          (parentsPreorder sc fuel object).find? (fun b => decide (sc.typeId b = K.Helix_id))
            = some a) ∧
      (status ≠ MStatus.kSuccess → status = MStatus.kFailure ∧ helix1 = helix) := by
  have hs := SearchParentsForType_spec sc K.Helix_id rank hok hrank fuel object helix hfuel
  unfold Helix.Selected Object.getObject
  simp only [hobj, if_true]
  rw [hs]
  cases hf : (parentsPreorder sc fuel object).find? (fun b => decide (sc.typeId b = K.Helix_id)) with
  | none =>
    refine ⟨MStatus.kFailure, helix, by simp [searchResult], ?_, ?_, ?_⟩
    · constructor
      · intro h; exact absurd h (by decide)
      · rintro ⟨a, ha, hta⟩
        rw [List.find?_eq_none] at hf
        exact absurd hta (by
          simpa using hf a (parentsPreorder_complete sc rank hrank a fuel object hfuel ha))
    · intro h; exact absurd h (by decide)
    · intro _; exact ⟨rfl, rfl⟩
  | some a =>
    have hta : sc.typeId a = K.Helix_id := by simpa using List.find?_some hf
    have hra := mem_parentsPreorder sc a fuel object (List.mem_of_find?_eq_some hf)
    refine ⟨MStatus.kSuccess, some a, by simp [searchResult], ?_, ?_, ?_⟩
    · exact ⟨fun _ => ⟨a, hra, hta⟩, fun _ => rfl⟩
    · intro _
      refine ⟨a, rfl, hra, hta, ?_, rfl⟩
      intro hto
      cases fuel with
      | zero => omega
      | succ f =>
        rw [parentsPreorder, List.find?_cons_of_pos _ (by simpa using hto)] at hf
        exact (Option.some.inj hf).symm
    · intro h; exact absurd rfl h

/-- The result of `FindChildWithNameContaining` does not depend on `contains`. -/
theorem FindChildWithNameContaining_ignores_contains (sc : Scene) (object : MDagPath)
    (contains contains1 : String) (result : MDagPath) :
    FindChildWithNameContaining sc object contains result =
      FindChildWithNameContaining sc object contains1 result := by
  have hloop : ∀ (o r i : Nat),
      FindChildWithNameContaining.loop sc o contains result r i =
        FindChildWithNameContaining.loop sc o contains1 result r i := by
    intro o r
    induction r with
    | zero => intro i; rfl
    | succ r ih =>
      intro i
      simp only [FindChildWithNameContaining.loop, ih]
  simp only [FindChildWithNameContaining, hloop]

/-- C6 on `sceneCaps`: `Helix_getCylinderCaps` succeeds with the top cap `3` in both
`topCap` and `bottomCap`, although the name of `3` does not contain
`cylinderRepresentation_bottomCap` and that of the later child `4` does; the search for
`cylinderRepresentation_bottomCap` itself returns `3`. -/
theorem getCylinderCaps_same_node :
    Helix_getCylinderCaps sceneCaps (some 1) none none = (MStatus.kSuccess, some 3, some 3) ∧
    FindChildWithNameContaining sceneCaps (some 1) "cylinderRepresentation_bottomCap" none
      = (MStatus.kSuccess, some 3) ∧
    strstr (sceneCaps.fullPathName 3).data "cylinderRepresentation_bottomCap".data = false ∧
    strstr (sceneCaps.fullPathName 4).data "cylinderRepresentation_bottomCap".data = true ∧
    strstr (sceneCaps.fullPathName 4).data "cylinderRepresentation_topCap".data = false := by
  decide

/-- C4 on `sceneLockedCap`: the bottom cap found is `4`, `SetZTranslationOnDagPath` fails
on it after the cylinder has been moved, and `Helix::setCylinderRange` still returns
`kSuccess`, leaving the height ratio 7 of the generator untouched. -/
theorem setCylinderRange_success_after_failure :
    Helix_getCylinderCaps sceneLockedCap (some 1) none none = (MStatus.kSuccess, some 4, some 4) ∧
    (SetZTranslationOnDagPath (SetZTranslationOnDagPath sceneLockedCap (some 1) 2).2
      (some 4) 2).1 = MStatus.kFailure ∧
    (Helix.setCylinderRange sceneLockedCap 0 2 3).1 = MStatus.kSuccess ∧
    (Helix.setCylinderRange sceneLockedCap 0 2 3).2.plugValue 5 "heightRatio" = some 7 := by
  refine ⟨by decide, by decide, by decide, rfl⟩

/-- C5 on `sceneLockedCap`: `setCylinderRange (2, 3)` returns `kSuccess` and the following
`getCylinderRange` returns `kSuccess` with origin 2 and height 14, not 3. -/
theorem getCylinderRange_after_set_differs :
    (Helix.setCylinderRange sceneLockedCap 0 2 3).1 = MStatus.kSuccess ∧
    Helix.getCylinderRange (Helix.setCylinderRange sceneLockedCap 0 2 3).2 0 0 0
      = (MStatus.kSuccess, 2, 14) ∧
    (Helix.getCylinderRange (Helix.setCylinderRange sceneLockedCap 0 2 3).2 0 0 0).2.2 ≠ 3 := by
  have h : Helix.getCylinderRange (Helix.setCylinderRange sceneLockedCap 0 2 3).2 0 0 0
      = (MStatus.kSuccess, 2, 7 * 2) := rfl
  refine ⟨by decide, ?_, ?_⟩
  · rw [h]; norm_num
  · rw [h]; norm_num

/-- C9 on `sceneCaps`, where the helix has a cylinder: `createCylinder (1, 3)` is
`setCylinderRange (1, 3)`, it returns `kSuccess`, and `getCylinderRange` then reads the
origin 1 and the height 3, not `top - origo = 2`. -/
theorem createCylinder_existing_height (executeCommand : CylinderCommand → Scene → Option Scene) :
    (Helix.hasCylinder sceneCaps 0).1 = true ∧
    Helix.createCylinder exampleConstants executeCommand sceneCaps 0 1 3
      = Helix.setCylinderRange sceneCaps 0 1 3 ∧
    (Helix.createCylinder exampleConstants executeCommand sceneCaps 0 1 3).1 = MStatus.kSuccess ∧
    Helix.getCylinderRange
      (Helix.createCylinder exampleConstants executeCommand sceneCaps 0 1 3).2 0 0 0
      = (MStatus.kSuccess, 1, 3) := by
  have hc : Helix.createCylinder exampleConstants executeCommand sceneCaps 0 1 3
      = Helix.setCylinderRange sceneCaps 0 1 3 := rfl
  have h : Helix.getCylinderRange (Helix.setCylinderRange sceneCaps 0 1 3).2 0 0 0
      = (MStatus.kSuccess, 1, 3 / 2 * 2) := rfl
  refine ⟨by decide, hc, ?_, ?_⟩
  · rw [hc]; decide
  · rw [hc, h]; norm_num

theorem SameGraph_refl (a : Scene) : SameGraph a a :=
  ⟨rfl, rfl, rfl, rfl, rfl, rfl, rfl, rfl⟩

theorem SameGraph_trans (a b c : Scene) (hab : SameGraph a b) (hbc : SameGraph b c) :
    SameGraph a c := by
  obtain ⟨a1, a2, a3, a4, a5, a6, a7, a8⟩ := hab
  obtain ⟨b1, b2, b3, b4, b5, b6, b7, b8⟩ := hbc
  exact ⟨b1.trans a1, b2.trans a2, b3.trans a3, b4.trans a4, b5.trans a5, b6.trans a6,
    b7.trans a7, b8.trans a8⟩

theorem FindChildWithNameContaining_congr (a b : Scene) (h : SameGraph a b)
    (object : MDagPath) (contains : String) (result : MDagPath) :
    FindChildWithNameContaining b object contains result =
      FindChildWithNameContaining a object contains result := by
  obtain ⟨h1, h2, h3, h4, _⟩ := h
  have hloop : ∀ (o r i : Nat),
      FindChildWithNameContaining.loop b o contains result r i =
        FindChildWithNameContaining.loop a o contains result r i := by
    intro o r
    induction r with
    | zero => intro i; rfl
    | succ r ih =>
      intro i
      simp only [FindChildWithNameContaining.loop, Object.getDagPath, h1, h3, h4, ih]
  simp only [FindChildWithNameContaining, h2, hloop]

theorem Helix_getMakeNurbCylinder_congr (a b : Scene) (h : SameGraph a b)
    (cylinder : MDagPath) (makeNurbCylinder : Option Nat) :
    Helix_getMakeNurbCylinder b cylinder makeNurbCylinder =
      Helix_getMakeNurbCylinder a cylinder makeNurbCylinder := by
  obtain ⟨_, _, _, _, h5, h6, h7, h8⟩ := h
  simp only [Helix_getMakeNurbCylinder, h5, h6, h7, h8]

/-- A successful `FindChildWithNameContaining` leaves a child of `object` in `result`. -/
theorem FindChildWithNameContaining_child (sc : Scene) (o : Nat) (contains : String)
    (result p : MDagPath) (h : FindChildWithNameContaining sc (some o) contains result
      = (MStatus.kSuccess, p)) :
    ∃ n i, p = some n ∧ sc.child o i = some n := by
  have hloop : ∀ (r i : Nat),
      FindChildWithNameContaining.loop sc o contains result r i = (MStatus.kSuccess, p) →
      ∃ n i, p = some n ∧ sc.child o i = some n := by
    intro r
    induction r with
    | zero => intro i h0; simp [FindChildWithNameContaining.loop] at h0
    | succ r ih =>
      intro i h0
      rw [FindChildWithNameContaining.loop] at h0
      cases hc : sc.child o i with
      | none => simp [hc] at h0
      | some c =>
        simp only [hc, Object.getDagPath] at h0
        by_cases hv : sc.validDagPath c = true
        · simp only [hv, if_true] at h0
          split_ifs at h0 with hs
          · simp only [Prod.mk.injEq, true_and] at h0
            exact ⟨c, i, h0.symm, hc⟩
          · exact ih (i + 1) h0
        · simp [hv] at h0
  unfold FindChildWithNameContaining at h
  cases hn : sc.childCount o with
  | none => simp [hn] at h
  | some n =>
    simp only [hn] at h
    exact hloop n 0 h

/-- A successful `Helix_getCylinderCaps` leaves children of the cylinder in both caps. -/
theorem Helix_getCylinderCaps_children (sc : Scene) (c : Nat) (top bottom : MDagPath)
    (h : Helix_getCylinderCaps sc (some c) none none = (MStatus.kSuccess, top, bottom)) :
    ∃ nt nb i j, top = some nt ∧ bottom = some nb ∧ sc.child c i = some nt ∧
      sc.child c j = some nb := by
  unfold Helix_getCylinderCaps at h
  rcases h1 : FindChildWithNameContaining sc (some c)
    (CYLINDERREPRESENTATION_NAME ++ "_topCap") none with ⟨s1, p1⟩
  rw [h1] at h
  cases s1 <;> simp [MStatus.toBool] at h
  rcases h2 : FindChildWithNameContaining sc (some c)
    (CYLINDERREPRESENTATION_NAME ++ "_bottomCap") none with ⟨s2, p2⟩
  rw [h2] at h
  cases s2 <;> simp [MStatus.toBool] at h
  obtain ⟨nt, i, e1, c1⟩ := FindChildWithNameContaining_child sc c _ none p1 h1
  obtain ⟨nb, j, e2, c2⟩ := FindChildWithNameContaining_child sc c _ none p2 h2
  exact ⟨nt, nb, i, j, by rw [← h.1, e1], by rw [← h.2, e2], c1, c2⟩

theorem Scene.withZ_sameGraph (sc : Scene) (n : Nat) (t : MVector) (z : ℚ) :
    SameGraph sc (sc.withZ n t z) :=
  ⟨rfl, rfl, rfl, rfl, rfl, rfl, rfl, rfl⟩

theorem SetZTranslationOnDagPath_success (sc : Scene) (n : Nat) (t : MVector) (z : ℚ)
    (ht : sc.translation n = some t) (hl : sc.translationLocked n = false) :
    SetZTranslationOnDagPath sc (some n) z = (MStatus.kSuccess, sc.withZ n t z) := by
  simp [SetZTranslationOnDagPath, ht, Scene.setTranslation, hl, Scene.withZ]

theorem Helix_getCylinderCaps_congr (a b : Scene) (h : SameGraph a b)
    (cylinder t bt : MDagPath) :
    Helix_getCylinderCaps b cylinder t bt = Helix_getCylinderCaps a cylinder t bt := by
  simp only [Helix_getCylinderCaps, FindChildWithNameContaining_congr a b h]

/-- The getter reads back what the setter wrote when every step of the setter succeeded:
if the cylinder is not its own child, its children are unlocked transforms and the radius
of the generator is not zero, then after a successful `setCylinderRange (origo, height)`
the call `getCylinderRange` returns `kSuccess` with `origo` and `height`, and no radius
has changed. -/
theorem setCylinderRange_getCylinderRange (sc sc1 : Scene) (this c : Nat)
    (origo height origo0 height0 : ℚ)
    (hcyl : Helix_getCylinder sc (some this) none = (MStatus.kSuccess, some c))
    (hself : ∀ i, sc.child c i ≠ some c)
    (hcaps : ∀ i n, sc.child c i = some n →
      (sc.translation n).isSome = true ∧ sc.translationLocked n = false)
    (hradius : ∀ g, sc.plugValue g "radius" ≠ some 0)
    (hset : Helix.setCylinderRange sc this origo height = (MStatus.kSuccess, sc1)) :
    Helix.getCylinderRange sc1 this origo0 height0 = (MStatus.kSuccess, origo, height) ∧
      ∀ g, sc1.plugValue g "radius" = sc.plugValue g "radius" := by
  unfold Helix.setCylinderRange at hset
  by_cases hv : sc.validDagPath this = true
  swap
  · simp [Object.getDagPath, hv] at hset
  simp only [Object.getDagPath, hv, if_true, hcyl, MStatus.toBool] at hset
  -- the cylinder
  cases htc : sc.translation c with
  | none => simp [SetZTranslationOnDagPath, htc, MStatus.toBool] at hset
  | some t =>
  by_cases hlc : sc.translationLocked c = true
  · simp [SetZTranslationOnDagPath, htc, Scene.setTranslation, hlc, MStatus.toBool] at hset
  have hlc1 : sc.translationLocked c = false := by simpa using hlc
  rw [SetZTranslationOnDagPath_success sc c t origo htc hlc1] at hset
  simp only [MStatus.toBool] at hset
  -- the caps
  rw [Helix_getCylinderCaps_congr sc _ (Scene.withZ_sameGraph sc c t origo)] at hset
  rcases hC : Helix_getCylinderCaps sc (some c) none none with ⟨sC, top, bottom⟩
  rw [hC] at hset
  cases sC <;> simp [MStatus.toBool] at hset
  obtain ⟨nt, nb, i, j, et, eb, ct, cb⟩ := Helix_getCylinderCaps_children sc c top bottom hC
  subst et eb
  have hnt : nt ≠ c := fun e => hself i (e ▸ ct)
  have hnb : nb ≠ c := fun e => hself j (e ▸ cb)
  obtain ⟨tb, htb⟩ := Option.isSome_iff_exists.mp (hcaps j nb cb).1
  have htb1 : (sc.withZ c t origo).translation nb = some tb := by
    simp [Scene.withZ, hnb, htb]
  rw [SetZTranslationOnDagPath_success _ nb tb origo htb1 (hcaps j nb cb).2] at hset
  obtain ⟨tt, htt⟩ : ∃ tt, ((sc.withZ c t origo).withZ nb tb origo).translation nt = some tt := by
    obtain ⟨t0, ht0⟩ := Option.isSome_iff_exists.mp (hcaps i nt ct).1
    by_cases e : nt = nb
    · exact ⟨{ tb with z := origo }, by simp [Scene.withZ, e]⟩
    · exact ⟨t0, by simp [Scene.withZ, e, hnt, ht0]⟩
  simp only [SetZTranslationOnDagPath_success _ nt tt (origo + height) htt (hcaps i nt ct).2,
    MStatus.toBool] at hset
  -- the generator
  have hg3 : SameGraph sc (((sc.withZ c t origo).withZ nb tb origo).withZ nt tt (origo + height)) :=
    ⟨rfl, rfl, rfl, rfl, rfl, rfl, rfl, rfl⟩
  rw [Helix_getMakeNurbCylinder_congr sc _ hg3] at hset
  rcases hM : Helix_getMakeNurbCylinder sc (some c) none with ⟨sM, mk⟩
  rw [hM] at hset
  cases sM <;> simp [MStatus.toBool] at hset
  cases mk with
  | none => simp at hset
  | some g =>
  by_cases ha1 : sc.hasAttribute g "heightRatio" = false
  · simp [Scene.withZ, ha1] at hset
  by_cases ha2 : sc.hasAttribute g "radius" = false
  · simp [Scene.withZ, ha1, ha2] at hset
  cases hr : sc.plugValue g "radius" with
  | none => simp [Scene.withZ, ha1, ha2, hr] at hset
  | some r =>
  by_cases hpl : sc.plugLocked g "heightRatio" = true
  · simp [Scene.withZ, Scene.setValue, ha1, ha2, hr, hpl] at hset
  have hr0 : r ≠ 0 := fun e => hradius g (by rw [hr, e])
  simp [Scene.withZ, Scene.setValue, ha1, ha2, hr, hpl] at hset
  have hS : SameGraph sc sc1 := by
    subst hset; exact ⟨rfl, rfl, rfl, rfl, rfl, rfl, rfl, rfl⟩
  have hT : sc1.translation c = some { t with z := origo } := by
    subst hset; simp [hnt.symm, hnb.symm]
  have hP1 : sc1.plugValue g "heightRatio" = some (height / r) := by
    subst hset; simp
  have hP2 : ∀ g1, sc1.plugValue g1 "radius" = sc.plugValue g1 "radius" := by
    intro g1; subst hset; simp
  have hv1 : sc1.validDagPath this = true := by rw [hS.1]; exact hv
  have hc1 : Helix_getCylinder sc1 (some this) none = (MStatus.kSuccess, some c) := by
    unfold Helix_getCylinder
    rw [FindChildWithNameContaining_congr sc sc1 hS]
    exact hcyl
  have hm1 : Helix_getMakeNurbCylinder sc1 (some c) none = (MStatus.kSuccess, some g) := by
    rw [Helix_getMakeNurbCylinder_congr sc sc1 hS]; exact hM
  have hat : sc1.hasAttribute = sc.hasAttribute := hS.2.2.2.2.2.2.1
  refine ⟨?_, hP2⟩
  unfold Helix.getCylinderRange
  simp [Object.getDagPath, hv1, hc1, MStatus.toBool, hT, hm1, hat, ha1, ha2, hP1, hP2, hr,
    div_mul_cancel₀ height hr0]

theorem sceneCycle_finite :
    ∀ h l, sceneCycle.Helix_Relatives h = some l → ∀ r ∈ l, r < 4 := by
  intro h l hl r hr
  simp only [sceneCycle] at hl
  split_ifs at hl <;> simp only [Option.some.injEq] at hl <;> subst hl <;> simp at hr <;> omega

theorem sceneCycle_hostOk : RelativesHostOk sceneCycle := by
  refine ⟨fun _ => rfl, fun _ _ => rfl, ?_⟩
  intro h
  simp only [sceneCycle]
  split_ifs <;> exact ⟨_, rfl⟩

theorem GetRelatives_transitive_closure_witness :
    RelativesHostOk sceneCycle ∧
    (∀ h l, sceneCycle.Helix_Relatives h = some l → ∀ r ∈ l, r < 4) ∧
    (∀ h ∈ [1, 1], h < 4) ∧ 4 < 5 ∧
    ∃ relatives, Helix.GetRelatives sceneCycle 5 [1, 1] [] = some (MStatus.kSuccess, relatives) ∧
      ∀ x, x ∈ relatives ↔ ∃ h ∈ [1, 1], Reach sceneCycle h x :=
  ⟨sceneCycle_hostOk, sceneCycle_finite, by decide, by decide,
    GetRelatives_transitive_closure sceneCycle 4 5 [1, 1] sceneCycle_hostOk sceneCycle_finite
      (by decide) (by decide)⟩

theorem GetRelatives_deduplicates_witness :
    (∀ h l, sceneCycle.Helix_Relatives h = some l → ∀ r ∈ l, r < 4) ∧
    (∀ h ∈ [0, 3, 0], h < 4) ∧ 4 < 5 ∧
    ∃ status added,
      Helix.GetRelatives sceneCycle 5 [0, 3, 0] [2, 1] = some (status, [2, 1] ++ added) ∧
      added.Nodup ∧ (∀ x ∈ added, x ∉ [2, 1]) ∧
      (([2, 1] : List Nat).Nodup → ([2, 1] ++ added).Nodup) :=
  ⟨sceneCycle_finite, by decide, by decide,
    GetRelatives_deduplicates sceneCycle 4 5 [0, 3, 0] [2, 1] sceneCycle_finite (by decide)
      (by decide)⟩

theorem GetRelatives_terminates_witness :
    (∀ h l, sceneCycle.Helix_Relatives h = some l → ∀ r ∈ l, r < 4) ∧
    (∀ h ∈ [0, 1], h < 4) ∧ uncollected 4 [2] < 4 ∧
    ∃ result, Helix.GetRelatives sceneCycle 4 [0, 1] [2] = some result :=
  ⟨sceneCycle_finite, by decide, by decide,
    GetRelatives_terminates sceneCycle 4 4 [0, 1] [2] sceneCycle_finite (by decide) (by decide)⟩

theorem base_iterator_enumerates_witness :
    sceneBases.validDagPath 0 = true ∧ sceneBases.childCount 0 = some 4 ∧
    4 < 4294967296 ∧ 4 < 5 ∧
    ∃ visited, Helix.visit sceneBases exampleConstants 0 5
        (Helix.begin sceneBases exampleConstants 0) = some visited ∧
      visited = (List.range 4).filter (isBaseChild sceneBases exampleConstants 0) ∧
      visited.Pairwise (fun a b => a < b) ∧
      ∀ i, i ∈ visited ↔ i < 4 ∧ ∃ c, sceneBases.child 0 i = some c ∧
        sceneBases.typeId c = exampleConstants.HelixBase_id :=
  ⟨rfl, rfl, by decide, by decide,
    base_iterator_enumerates sceneBases exampleConstants 0 4 5 rfl rfl (by decide) (by decide)⟩

theorem sceneBases_no_base (j c : Nat) (h : sceneBases.child 1 j = some c) :
    sceneBases.typeId c ≠ exampleConstants.HelixBase_id := by
  by_cases hj : j < 2
  · have : j = 0 ∨ j = 1 := by omega
    rcases this with h0 | h0 <;> subst h0 <;> simp [sceneBases] at h <;> subst h <;> decide
  · simp [sceneBases, hj] at h

theorem GetNextBaseIndex_exhausted_witness :
    sceneBases.validDagPath 1 = true ∧ sceneBases.childCount 1 = some 2 ∧
    2 < 4294967296 ∧ ((4294967295 : Nat) < 2 ∨ (4294967295 : Nat) = 4294967295) ∧
    (∀ j c, (4294967295 + 1) % 4294967296 ≤ j → j < 2 → sceneBases.child 1 j = some c →
      sceneBases.typeId c ≠ exampleConstants.HelixBase_id) ∧
    ((Helix.BaseIterator.GetNextBaseIndex sceneBases exampleConstants
        { m_helix := 1, m_childIndex := 4294967295 }).m_childIndex = 2 ∧
      (Helix.end_ sceneBases 1).m_childIndex = 2 ∧
      ((4294967295 : Nat) = 4294967295 →
        Helix.begin sceneBases exampleConstants 1 = Helix.end_ sceneBases 1)) :=
  ⟨rfl, rfl, by decide, Or.inr rfl, fun j c _ _ h => sceneBases_no_base j c h,
    GetNextBaseIndex_exhausted sceneBases exampleConstants 1 2 4294967295 rfl rfl (by decide)
      (Or.inr rfl) (fun j c _ _ h => sceneBases_no_base j c h)⟩

theorem sceneParents_hostOk : ParentsHostOk sceneParents := by
  intro o
  by_cases h3 : o = 3
  · subst h3
    refine ⟨2, rfl, ?_⟩
    intro i hi
    have : i = 0 ∨ i = 1 := by omega
    rcases this with h | h <;> subst h
    · exact ⟨2, rfl⟩
    · exact ⟨1, rfl⟩
  · by_cases h2 : o = 2
    · subst h2
      refine ⟨1, rfl, ?_⟩
      intro i hi
      have : i = 0 := by omega
      subst this
      exact ⟨0, rfl⟩
    · refine ⟨0, by simp [sceneParents, h3, h2], ?_⟩
      intro i hi
      omega

theorem sceneParents_rank : ∀ a p, IsParent sceneParents a p → id p < id a := by
  rintro a p ⟨n, i, _, _, hp⟩
  simp only [sceneParents] at hp
  simp only [id]
  split_ifs at hp with h1 h2 h3 <;> simp only [Option.some.injEq] at hp <;> omega

theorem Selected_searches_parents_witness :
    sceneParents.validObject 3 = true ∧ ParentsHostOk sceneParents ∧
    (∀ a p, IsParent sceneParents a p → id p < id a) ∧ id 3 < 4 ∧
    ∃ status helix1, Helix.Selected sceneParents exampleConstants 4 3 none
        = some (status, helix1) ∧
      (status = MStatus.kSuccess ↔
        ∃ a, Relation.ReflTransGen (IsParent sceneParents) 3 a ∧
          sceneParents.typeId a = exampleConstants.Helix_id) ∧
      (status = MStatus.kSuccess →
        ∃ a, helix1 = some a ∧ Relation.ReflTransGen (IsParent sceneParents) 3 a ∧
          sceneParents.typeId a = exampleConstants.Helix_id ∧
          (sceneParents.typeId 3 = exampleConstants.Helix_id → a = 3) ∧
          (parentsPreorder sceneParents 4 3).find?
            (fun b => decide (sceneParents.typeId b = exampleConstants.Helix_id)) = some a) ∧
      (status ≠ MStatus.kSuccess → status = MStatus.kFailure ∧ helix1 = none) :=
  ⟨rfl, sceneParents_hostOk, sceneParents_rank, by decide,
    Selected_searches_parents sceneParents exampleConstants id 4 3 none rfl sceneParents_hostOk
      sceneParents_rank (by decide)⟩

theorem sceneCaps_children (i n : Nat) (h : sceneCaps.child 1 i = some n) : n = 3 ∨ n = 4 := by
  by_cases h0 : i = 0
  · subst h0; simp [sceneCaps] at h; omega
  · by_cases h1 : i = 1
    · subst h1; simp [sceneCaps] at h; omega
    · simp [sceneCaps, h0, h1] at h

theorem sceneCaps_radius (g : Nat) : sceneCaps.plugValue g "radius" ≠ some 0 := by
  simp only [sceneCaps]
  split_ifs with h1 h2
  · simp
  · exact absurd h2.2 (by decide)
  · simp

/-- On `sceneCaps`, where every step of the setter succeeds, `getCylinderRange` reads back
the origin 2 and the height 3 written by `setCylinderRange (2, 3)`. -/
theorem setCylinderRange_getCylinderRange_sceneCaps :
    Helix.getCylinderRange (Helix.setCylinderRange sceneCaps 0 2 3).2 0 0 0
        = (MStatus.kSuccess, 2, 3) ∧
      ∀ g, (Helix.setCylinderRange sceneCaps 0 2 3).2.plugValue g "radius"
        = sceneCaps.plugValue g "radius" :=
  setCylinderRange_getCylinderRange sceneCaps _ 0 1 2 3 0 0 (by decide)
    (fun i h => by rcases sceneCaps_children i 1 h with e | e <;> omega)
    (fun i n h => by rcases sceneCaps_children i n h with e | e <;> subst e <;> decide)
    sceneCaps_radius (Prod.ext (by decide) rfl)
